import Mathlib

/-!
Verification of the bitrise-cli live-output processing pipeline.

Bytes are modelled as `Nat` values and Go byte slices as `List Nat`.
The secret redactor (`src/tools/asynccmd/filterbuffer.go`) is embedded
definition by definition; Go maps keyed by secret index are rendered as
association lists enumerated in ascending secret-index order (Go map
iteration order is unspecified; only this rendering is deterministic).
A Go runtime panic (index out of range) is rendered as `Option.none`.
-/

namespace Bitrise

/-- The newline byte, `var newLine = []byte("\n")`. -/
def newLineByte : Nat := 10

/-- Byte list of the Go constant `RedactStr = "[REDACTED]"`. -/
def redactBytes : List Nat := [91, 82, 69, 68, 65, 67, 84, 69, 68, 93]

/-- Embeds Go `bytes.Contains(s, pat)`: does `pat` occur as a contiguous
substring of `s`?  `bytes.Contains(s, [])` is true. -/
def bContains : List Nat → List Nat → Bool
  | s, pat =>
    if pat.isPrefixOf s then true
    else
      match s with
      | [] => false
      | _ :: rest => bContains rest pat

/-- Fuelled worker for `bReplace`; fuel `s.length` suffices because each
step consumes at least one byte of the subject when `old` is nonempty. -/
def bReplaceAux (old new : List Nat) : List Nat → Nat → List Nat
  | s, 0 => s
  | s, fuel + 1 =>
    if old.isPrefixOf s then new ++ bReplaceAux old new (s.drop old.length) fuel
    else
      match s with
      | [] => []
      | b :: bs => b :: bReplaceAux old new bs fuel

/-- Embeds Go `bytes.Replace(s, old, new, -1)`: replace every
non-overlapping leftmost occurrence of `old` by `new`; an empty `old`
inserts `new` before each byte and at the end. -/
def bReplace (s old new : List Nat) : List Nat :=
  if old = [] then new ++ s.flatMap (fun b => b :: new)
  else bReplaceAux old new s s.length

/-- Worker for `split`; `cur` is the current (reversed) unfinished line. -/
def splitAux (cur : List Nat) : List Nat → List (List Nat) × List Nat
  | [] => ([], cur.reverse)
  | b :: bs =>
    if b = newLineByte then
      let (ls, c) := splitAux [] bs
      ((cur.reverse ++ [newLineByte]) :: ls, c)
    else splitAux (b :: cur) bs

/-- Embeds `split` of filterbuffer.go: cut `p` after every newline; the
lines keep their trailing newline and the trailing newline-free rest is
returned as the chunk. -/
def split (p : List Nat) : List (List Nat) × List Nat :=
  splitAux [] p

/-- Worker for `splitSep`, embedding Go `bytes.Split(s, "\n")`. -/
def splitSepAux (cur : List Nat) : List Nat → List (List Nat)
  | [] => [cur.reverse]
  | b :: bs =>
    if b = newLineByte then cur.reverse :: splitSepAux [] bs
    else splitSepAux (b :: cur) bs

/-- Embeds Go `bytes.Split(s, newLine)` as used by `secretsByteList`:
the separator is removed and the result is always nonempty. -/
def splitSep (s : List Nat) : List (List Nat) :=
  splitSepAux [] s

/-- Embeds `secretsByteList`: each secret value becomes its list of
newline-separated byte lines. -/
def secretsByteList (secrets : List (List Nat)) : List (List (List Nat)) :=
  secrets.map splitSep

/-- Result of matching one secret against a candidate start line:
confirmed, still possible on more lines (Go `partialMatch`), or ruled
out by a contradicting line. -/
inductive MatchKind where
  | matched
  | pending
  | ruledOut
deriving DecidableEq, Repr

/-- Embeds the inner loop of `matchSecrets`: check the remaining secret
lines against the subsequent candidate lines, by substring containment.
Running out of candidate lines first yields a pending (Go partial)
match; a non-containing line rules the start out. -/
def matchTail : List (List Nat) → List (List Nat) → MatchKind
  | [], _ => .matched
  | _ :: _, [] => .pending
  | s :: ss, l :: ls => if bContains l s then matchTail ss ls else .ruledOut

/-- How the secret fares when started at candidate line `i` (which is
already known to contain the secret's first line).  A single-line secret
is confirmed immediately; the empty secret cannot arise from
`secretsByteList` and is rendered as ruled out. -/
def classifyAt (secret : List (List Nat)) (lines : List (List Nat)) (i : Nat) : MatchKind :=
  match secret with
  | [] => .ruledOut
  | [_] => .matched
  | _ :: rest => matchTail rest (lines.drop (i + 1))

/-- Embeds the `lineIndexes` collection of `matchSecrets`: indexes of
candidate lines containing the secret's first line. -/
def secretStarts (secretHead : List Nat) (lines : List (List Nat)) : List Nat :=
  (List.range lines.length).filter (fun i => bContains (lines.getD i []) secretHead)

/-- Start indexes at which the secret is confirmed in `lines`. -/
def confirmedStarts (secret : List (List Nat)) (lines : List (List Nat)) : List Nat :=
  (secretStarts (secret.headD []) lines).filter
    (fun i => decide (classifyAt secret lines i = MatchKind.matched))

/-- Start indexes at which the secret match is still open (Go partial). -/
def pendingStarts (secret : List (List Nat)) (lines : List (List Nat)) : List Nat :=
  (secretStarts (secret.headD []) lines).filter
    (fun i => decide (classifyAt secret lines i = MatchKind.pending))

/-- The `matchMap` of `matchSecrets`, rendered as an association list in
ascending secret-index order; a secret with no confirmed start carries
the empty index list (absent key in the Go map). -/
def matchMapAux (lines : List (List Nat)) : Nat → List (List (List Nat)) → List (Nat × List Nat)
  | _, [] => []
  | si, secret :: rest => (si, confirmedStarts secret lines) :: matchMapAux lines (si + 1) rest

/-- The `partialMatchIndexes` of `matchSecrets`, as the list of all
pending start indexes over all secrets. -/
def pendingAux : List (List (List Nat)) → List (List Nat) → List Nat
  | [], _ => []
  | secret :: rest, lines => pendingStarts secret lines ++ pendingAux rest lines

/-- Embeds `Buffer.matchSecrets`: the confirmed-match map and the set of
line indexes with a still-open (Go partial) match. -/
def matchSecrets (secrets : List (List (List Nat))) (lines : List (List Nat)) :
    List (Nat × List Nat) × List Nat :=
  (matchMapAux lines 0 secrets, pendingAux secrets lines)

/-- Embeds `Buffer.linesToKeepRange`: the least pending start index
(`none` renders Go's `-1`). -/
def linesToKeepRange (pending : List Nat) : Option Nat :=
  pending.foldl
    (fun acc i =>
      match acc with
      | none => some i
      | some f => if f > i then some i else some f)
    none

/-- Embeds `Buffer.matchLines`: which candidate lines can be printed
(`none` renders Go's `nil`, skipping the write) and which are kept. -/
def matchLines (lines : List (List Nat)) (pending : List Nat) :
    Option (List (List Nat)) × List (List Nat) :=
  match linesToKeepRange pending with
  | none => (some lines, [])
  | some 0 => (none, lines)
  | some f => (some (lines.take f), lines.drop f)

/-- Embeds the innermost loop of `Buffer.redact`: replace one secret's
lines over the span starting at line index `i`.  Accessing a line index
beyond the printed lines is the Go index-out-of-range panic, `none`. -/
def redactSpanAux (redactWith : List Nat) : List (List Nat) → Nat → List (List Nat) →
    Option (List (List Nat))
  | [], _, ls => some ls
  | sLine :: rest, i, ls =>
    if i < ls.length then
      redactSpanAux redactWith rest (i + 1) (ls.set i (bReplace (ls.getD i []) sLine redactWith))
    else none

/-- Replace one secret over each of its confirmed start indexes. -/
def redactIdxs (secret : List (List Nat)) : List Nat → List (List Nat) →
    Option (List (List Nat))
  | [], ls => some ls
  | i :: is, ls =>
    match redactSpanAux redactBytes secret i ls with
    | none => none
    | some ls' => redactIdxs secret is ls'

/-- Embeds `Buffer.redact`: hide every confirmed secret occurrence in
the given lines; `none` renders the Go panic when a confirmed span
reaches past the given lines. -/
def redact (secrets : List (List (List Nat))) : List (Nat × List Nat) → List (List Nat) →
    Option (List (List Nat))
  | [], ls => some ls
  | (si, idxs) :: rest, ls =>
    match secrets[si]? with
    | none => none
    | some secret =>
      match redactIdxs secret idxs ls with
      | none => none
      | some ls' => redact secrets rest ls'

/-- The `Buffer` of filterbuffer.go: the configured secret lines, the
trailing unterminated chunk, the held-back line store, and the bytes
forwarded so far into the underlying `bytes.Buffer`. -/
structure FilterBuffer where
  secrets : List (List (List Nat))
  chunk : List Nat
  store : List (List Nat)
  out : List Nat
deriving DecidableEq, Repr

/-- Embeds `newBuffer`. -/
def newBuffer (secrets : List (List Nat)) : FilterBuffer :=
  { secrets := secretsByteList secrets, chunk := [], store := [], out := [] }

/-- Embeds the per-line loop body of `Buffer.Write`. -/
def writeLines (b : FilterBuffer) : List (List Nat) → Option FilterBuffer
  | [] => some b
  | line :: rest =>
    let lines := b.store ++ [line]
    let (matchMap, pending) := matchSecrets b.secrets lines
    let (linesToPrint, newStore) := matchLines lines pending
    match linesToPrint with
    | none => writeLines { b with store := newStore } rest
    | some toPrint =>
      match redact b.secrets matchMap toPrint with
      | none => none
      | some redactedLines =>
        writeLines { b with store := newStore, out := b.out ++ redactedLines.flatten } rest

/-- Embeds `Buffer.Write`: prepend the held chunk, split into complete
lines plus a new chunk, and process each completed line.  `none`
renders the Go panic reachable inside `redact`. -/
def bufferWrite (b : FilterBuffer) (p : List Nat) : Option FilterBuffer :=
  let (lastLines, chunk) := split (b.chunk ++ p)
  writeLines { b with chunk := chunk } lastLines

/-- Embeds `Buffer.Flush`: promote a nonempty trailing chunk to a
newline-terminated stored line, redact confirmed matches over the whole
store and forward it, clearing the store. -/
def bufferFlush (b : FilterBuffer) : Option FilterBuffer :=
  let b1 :=
    if b.chunk = [] then b
    else { b with chunk := [], store := b.store ++ [b.chunk ++ [newLineByte]] }
  let matchMap := (matchSecrets b1.secrets b1.store).1
  match redact b1.secrets matchMap b1.store with
  | none => none
  | some redactedLines =>
    some { b1 with store := [], out := b1.out ++ redactedLines.flatten }

/-! ### Level classifier

The `logwriter.LogLevelWriter` source is not in the repository snapshot
(only its tests are), so the classifier is modelled from the spec,
checked against the expectations of the tests in part_001. -/

/-- Log levels of a LogRecord. -/
inductive Level where
  | normal
  | info
  | warn
  | error
  | done
  | debug
deriving DecidableEq, Repr

/-- A structured log record: level and message bytes (the remaining
fields — timestamp, producer — are constant per pipeline and carry no
per-record information). -/
structure LogRecord where
  level : Level
  message : List Nat
deriving DecidableEq, Repr

/-- Modelled from the spec: the five anchored opening markers, the ANSI
color sequences ESC[31;1m, ESC[33;1m, ESC[34;1m, ESC[32;1m, ESC[35;1m
mapped to error, warn, info, done and debug (values fixed by the tests
in part_001). `normal` has no marker. -/
def openMarkerOf : Level → Option (List Nat)
  | .error => some [27, 91, 51, 49, 59, 49, 109]
  | .warn => some [27, 91, 51, 51, 59, 49, 109]
  | .info => some [27, 91, 51, 52, 59, 49, 109]
  | .done => some [27, 91, 51, 50, 59, 49, 109]
  | .debug => some [27, 91, 51, 53, 59, 49, 109]
  | .normal => none

/-- Modelled from the spec: the closing marker, the ANSI reset sequence
ESC[0m. -/
def closeMarker : List Nat := [27, 91, 48, 109]

/-- The levels that own an opening marker, in the order they are tried. -/
def leveledLevels : List Level := [.error, .warn, .info, .done, .debug]

/-- Modelled from the spec: which opening marker the chunk begins with,
if any. -/
def findOpen (chunk : List Nat) : Option Level :=
  leveledLevels.find? (fun l => ((openMarkerOf l).getD []).isPrefixOf chunk)

/-- Modelled from the spec: the anchored full-match condition — the text
is exactly opening-marker + content + closing-marker, optionally
followed by one trailing line terminator and nothing else. -/
def fullMatch (l : Level) (t : List Nat) : Bool :=
  match openMarkerOf l with
  | none => false
  | some m =>
    m.isPrefixOf t &&
      (((closeMarker ++ [newLineByte]).isSuffixOf t
          && decide (m.length + closeMarker.length + 1 ≤ t.length))
        || (closeMarker.isSuffixOf t
          && decide (m.length + closeMarker.length ≤ t.length)))

/-- Modelled from the spec: strip the opening marker, the closing marker
and one optional trailing terminator from a fully matched text. -/
def stripLeveled (l : Level) (t : List Nat) : List Nat :=
  match openMarkerOf l with
  | none => t
  | some m =>
    let t1 := t.drop m.length
    if (closeMarker ++ [newLineByte]).isSuffixOf t1 then
      t1.take (t1.length - (closeMarker.length + 1))
    else if closeMarker.isSuffixOf t1 then t1.take (t1.length - closeMarker.length)
    else t1

/-- Classifier state: Idle, or Collecting with the level captured at
entry and the accumulated text. -/
inductive ClsState where
  | idle
  | collecting (l : Level) (acc : List Nat)
deriving DecidableEq, Repr

/-- Modelled from the spec: one write into the level classifier.  An
empty chunk is a no-op (the tests show an empty write produces no
record).  In Idle a chunk starting with an opening marker enters
Collecting and is emitted at once if it already fully matches; any
other chunk is emitted unmodified at level normal.  In Collecting the
chunk is appended after a line separator and the full-match condition
is re-checked. -/
def classifierWrite (st : ClsState) (chunk : List Nat) : ClsState × List LogRecord :=
  if chunk = [] then (st, [])
  else
    match st with
    | .idle =>
      match findOpen chunk with
      | none => (.idle, [⟨.normal, chunk⟩])
      | some l =>
        if fullMatch l chunk then (.idle, [⟨l, stripLeveled l chunk⟩])
        else (.collecting l chunk, [])
    | .collecting l acc =>
      let acc' := acc ++ [newLineByte] ++ chunk
      if fullMatch l acc' then (.idle, [⟨l, stripLeveled l acc'⟩])
      else (.collecting l acc', [])

/-- Modelled from the spec: explicit flush — a Collecting state is
emitted exactly as buffered at level normal; an Idle flush is a no-op. -/
def classifierFlush : ClsState → ClsState × List LogRecord
  | .idle => (.idle, [])
  | .collecting _ acc => (.idle, [⟨.normal, acc⟩])

/-- Run the classifier over a sequence of write chunks, collecting the
emitted records in order. -/
def runClassifier : ClsState → List (List Nat) → ClsState × List LogRecord
  | st, [] => (st, [])
  | st, c :: cs =>
    let (st', r) := classifierWrite st c
    let (st'', r') := runClassifier st' cs
    (st'', r ++ r')

/-- The accumulated text after folding chunks into `acc`, one line
separator per chunk. -/
def accumFrom (acc : List Nat) : List (List Nat) → List Nat
  | [] => acc
  | c :: cs => accumFrom (acc ++ [newLineByte] ++ c) cs

/-! ### Error extractor and pipeline composer -/

/-- Modelled from the spec: the Error Extractor state — its own
classifier-style scanner plus the accumulated ordered error messages
(the `errorfinder` source is not in the repository snapshot). -/
structure ErrorFinderSt where
  cls : ClsState
  errorMessages : List (List Nat)
deriving DecidableEq, Repr

/-- Modelled from the spec: one write through the Error Extractor — the
stream is forwarded unchanged while error-level records detected by its
own scanner are appended, in order, to the accumulated list. -/
def efWrite (e : ErrorFinderSt) (p : List Nat) : ErrorFinderSt :=
  let (cls', recs) := classifierWrite e.cls p
  { cls := cls',
    errorMessages :=
      e.errorMessages ++
        (recs.filter (fun r => decide (r.level = Level.error))).map (fun r => r.message) }

/-- The `stepoutput.Writer` of stepoutputwriter.go: the optional secret
redactor stage, the error extractor stage and the level classifier. -/
structure StepWriter where
  secretWriter : Option FilterBuffer
  errorWriter : Option ErrorFinderSt
  logLevelWriter : ClsState
deriving DecidableEq, Repr

/-- Embeds `stepoutput.NewWriter`: the classifier and error extractor
are always installed; the secret redactor only when secrets are given. -/
def newStepWriter (secrets : List (List Nat)) : StepWriter :=
  { secretWriter := if secrets.length > 0 then some (newBuffer secrets) else none,
    errorWriter := some ⟨.idle, []⟩,
    logLevelWriter := .idle }

/-- Embeds `Writer.ErrorMessages`: the error extractor's accumulated
list, or empty (Go `nil`) when the stage is absent. -/
def stepErrorMessages (w : StepWriter) : List (List Nat) :=
  match w.errorWriter with
  | some e => e.errorMessages
  | none => []

/-- The redactor-plus-classifier pipeline threaded by `Writer.Flush`:
the redactor's flush output is what the classifier stage receives. -/
structure Pipeline where
  buf : FilterBuffer
  cls : ClsState
deriving DecidableEq, Repr

/-- Embeds `Writer.Flush`: flush the secret redactor, hand the bytes it
releases to the level classifier, then flush the classifier.  Returns
the new state, the records emitted and the bytes the redactor forwarded;
`none` renders a propagated error. -/
def pipelineFlush (p : Pipeline) : Option (Pipeline × List LogRecord × List Nat) :=
  match bufferFlush p.buf with
  | none => none
  | some buf' =>
    let released := buf'.out.drop p.buf.out.length
    let (cls1, recs1) := classifierWrite p.cls released
    let (cls2, recs2) := classifierFlush cls1
    some (⟨buf', cls2⟩, recs1 ++ recs2, released)

/-! ### Hang detector

The `hangdetector` source is not in the repository snapshot (only its
test is), so it is modelled from the spec. -/

/-- Modelled from the spec: the hang detector's observable state — the
activity flag written by wrapped writes, the consecutive-silent-tick
counter, and the number of liveness-lost signals emitted. -/
structure HangSt where
  activity : Bool
  counter : Nat
  signals : Nat
deriving DecidableEq, Repr

/-- Modelled from the spec: a pass-through write marks the activity
flag. -/
def hdWrite (s : HangSt) : HangSt :=
  { s with activity := true }

/-- Modelled from the spec: one tick with threshold `n` checks and
clears the activity flag; activity resets the silent counter, silence
increments it, and a single signal is emitted when the counter reaches
`n`. -/
def hdTick (n : Nat) (s : HangSt) : HangSt :=
  if s.activity then { s with activity := false, counter := 0 }
  else
    let c := s.counter + 1
    { s with counter := c, signals := if c = n then s.signals + 1 else s.signals }

/-- Events observable by the hang detector. -/
inductive HdEvent where
  | tick
  | write
deriving DecidableEq, Repr

/-- Run the hang detector over a sequence of events. -/
def hdRun (n : Nat) : HangSt → List HdEvent → HangSt
  | s, [] => s
  | s, .tick :: es => hdRun n (hdTick n s) es
  | s, .write :: es => hdRun n (hdWrite s) es

/-- The freshly constructed detector state. -/
def hdStart : HangSt := ⟨false, 0, 0⟩

/-! ### JSON logger (src/log/corelog/json_logger.go) -/

/-- The fields accompanying a message, `corelog.MessageFields`. -/
structure MessageFields where
  timestamp : String
  producer : String
  producerID : String
  level : String
deriving DecidableEq, Repr

/-- The serialized record struct, `corelog.logMessage`. -/
structure LogMsg where
  timestamp : String
  messageType : String
  producer : String
  producerID : String
  level : String
  message : String
deriving DecidableEq, Repr

/-- Construction of the `logMessage` value inside `LogMessage`. -/
def mkLogMessage (message : String) (f : MessageFields) : LogMsg :=
  { timestamp := f.timestamp, messageType := "log", producer := f.producer,
    producerID := f.producerID, level := f.level, message := message }

/-- Embeds `jsonLogger.logMessageForError`: the manually concatenated
fallback record for a failed serialization. -/
def logMessageForError (err timestamps msg : String) : String :=
  "\x7b" ++ "\"timestamp\":\"" ++ timestamps ++ "\"," ++ "\"type\":\"log\","
    ++ "\"producer\":\"bitrise_cli\"," ++ "\"level\":\"error\","
    ++ "\"message\":\"log message (" ++ msg ++ ") serialization failed: " ++ err ++ "\""
    ++ "\x7d"

/-- The observable sinks of the json logger: the configured output the
encoder writes to, and the process standard output that `fmt.Println`
writes to. -/
structure JLState where
  output : List String
  stdout : List String
deriving DecidableEq, Repr

/-- Embeds `jsonLogger.LogMessage`, parameterized by the encoder
(`enc`, `none` rendering an `Encode` error), the error's text (`errStr`)
and the `%#v` payload dump (`dump`): a successful encoding is appended
to the configured output; on failure `fmt.Println` appends the fallback
record (plus newline) to standard output. -/
def jlLogMessage (enc : LogMsg → Option String) (errStr : LogMsg → String)
    (dump : LogMsg → String) (st : JLState) (message : String) (fields : MessageFields) :
    JLState :=
  let msg := mkLogMessage message fields
  match enc msg with
  | some s => { st with output := st.output ++ [s] }
  | none =>
    { st with
        stdout := st.stdout ++ [logMessageForError (errStr msg) fields.timestamp (dump msg) ++ "\n"] }

/-- Line index `j` lies inside some confirmed secret span of the match
map: the span's lines are the ones `redact` rewrites. -/
def coveredBy (secrets : List (List (List Nat))) (mm : List (Nat × List Nat)) (j : Nat) : Prop :=
  ∃ q ∈ mm, ∃ secret, secrets[q.1]? = some secret ∧ ∃ i ∈ q.2, i ≤ j ∧ j < i + secret.length

/-- The candidate lines `Buffer.Flush` re-runs matching over: the
retained store plus, when nonempty, the trailing chunk with a newline
appended. -/
def flushCandidates (chunk : List Nat) (store : List (List Nat)) : List (List Nat) :=
  store ++ (if chunk = [] then [] else [chunk ++ [newLineByte]])

/-! ### Lemmas about `split` -/

/-- Joint specification of `splitAux`: the pieces concatenate back to
the input, every line ends with a newline, and the chunk is
newline-free when the carried prefix is. -/
lemma splitAux_spec (p : List Nat) : ∀ cur : List Nat,
    (splitAux cur p).1.flatten ++ (splitAux cur p).2 = cur.reverse ++ p
      ∧ (∀ l ∈ (splitAux cur p).1, l ≠ [] ∧ l.getLast? = some newLineByte)
      ∧ (newLineByte ∉ cur → newLineByte ∉ (splitAux cur p).2) := by
  induction p with
  | nil =>
    intro cur
    refine ⟨by simp [splitAux], by simp [splitAux], ?_⟩
    intro h
    simpa [splitAux] using h
  | cons b bs ih =>
    intro cur
    by_cases hb : b = newLineByte
    · subst hb
      obtain ⟨ih1, ih2, ih3⟩ := ih []
      refine ⟨?_, ?_, ?_⟩
      · simp only [splitAux, eq_self_iff_true, if_true]
        simp only [List.flatten_cons, List.append_assoc]
        rw [ih1]
        simp
      · simp only [splitAux, eq_self_iff_true, if_true]
        intro l hl
        rcases List.mem_cons.mp hl with h | h
        · subst h
          constructor
          · simp
          · simp [List.getLast?_append]
        · exact ih2 l h
      · intro _
        simp only [splitAux, eq_self_iff_true, if_true]
        exact ih3 (by simp)
    · obtain ⟨ih1, ih2, ih3⟩ := ih (b :: cur)
      refine ⟨?_, ?_, ?_⟩
      · simp only [splitAux, if_neg hb]
        rw [ih1]
        simp
      · simp only [splitAux, if_neg hb]
        exact ih2
      · intro hcur
        simp only [splitAux, if_neg hb]
        refine ih3 ?_
        intro hmem
        rcases List.mem_cons.mp hmem with h | h
        · exact hb h.symm
        · exact hcur h

/-- C10 — `split` partitions its input: the completed lines followed by
the chunk concatenate back to the original bytes, every completed line
ends with the newline byte, and the chunk contains no newline byte. -/
theorem c10_split_partition (p : List Nat) :
    (split p).1.flatten ++ (split p).2 = p
      ∧ (∀ l ∈ (split p).1, l ≠ [] ∧ l.getLast? = some newLineByte)
      ∧ newLineByte ∉ (split p).2 := by
  obtain ⟨h1, h2, h3⟩ := splitAux_spec p []
  exact ⟨by simpa [split] using h1, by simpa [split] using h2,
    by simpa [split] using h3 (by simp)⟩

/-! ### Claim C1 -/

/-- C1 — refuted on the code: with the configured secret `"REDACTED"`
and the single write `"REDACTED\n"`, the write completes and the bytes
forwarded to the underlying buffer are `"[REDACTED]\n"`, which contains
the secret's literal text as a substring: the redaction marker itself
can re-introduce a secret. -/
theorem c1_secret_survives_redaction :
    bufferWrite (newBuffer [[82, 69, 68, 65, 67, 84, 69, 68]])
        [82, 69, 68, 65, 67, 84, 69, 68, 10]
      = some
          { secrets := [[[82, 69, 68, 65, 67, 84, 69, 68]]], chunk := [], store := [],
            out := [91, 82, 69, 68, 65, 67, 84, 69, 68, 93, 10] }
      ∧ bContains [91, 82, 69, 68, 65, 67, 84, 69, 68, 93, 10]
          [82, 69, 68, 65, 67, 84, 69, 68] = true := by
  decide

/-! ### Claim C2 -/

/-- C2 — refuted on the code: with secrets `"a\nb"` and `"b\nc"` and the
single write `"xa\nyb\n"`, the secret `"a\nb"` is confirmed over lines
0–1 while `"b\nc"` is still open from line 1, so only line 0 is printed;
`redact` then indexes line 1 of a one-line slice and the write dies with
an index-out-of-range panic (`none`) instead of forwarding the redacted
prefix. -/
theorem c2_write_panics_on_boundary_spanning_match :
    bufferWrite (newBuffer [[97, 10, 98], [98, 10, 99]])
      [120, 97, 10, 121, 98, 10] = none := by
  decide

/-! ### Claim C3 counterexample -/

/-- C3 — counterexample to the byte-exactness part of the claim: with no
secrets, writing `"abc"` withholds exactly the bytes `[97, 98, 99]`
(no completed line), but the following flush forwards `[97, 98, 99, 10]`
— a newline byte the input never contained is added to the trailing
partial line. -/
theorem c3_flush_appends_newline_counterexample :
    bufferWrite (newBuffer []) [97, 98, 99]
        = some { secrets := [], chunk := [97, 98, 99], store := [], out := [] }
      ∧ bufferFlush { secrets := [], chunk := [97, 98, 99], store := [], out := [] }
        = some { secrets := [], chunk := [], store := [], out := [97, 98, 99, 10] }
      ∧ [97, 98, 99, 10] ≠ [97, 98, 99] := by
  decide

/-! ### Lemmas about `redact` -/

/-- Start indexes produced by `secretStarts` point at candidate lines. -/
lemma mem_secretStarts {h : List Nat} {lines : List (List Nat)} {i : Nat}
    (hi : i ∈ secretStarts h lines) : i < lines.length := by
  simp only [secretStarts, List.mem_filter, List.mem_range] at hi
  exact hi.1

/-- A fully matched tail consumed at most as many candidate lines as
remain. -/
lemma matchTail_matched_length : ∀ (sr lr : List (List Nat)),
    matchTail sr lr = .matched → sr.length ≤ lr.length := by
  intro sr
  induction sr with
  | nil => intro lr _; simp
  | cons s ss ih =>
    intro lr h
    cases lr with
    | nil => simp [matchTail] at h
    | cons l ls =>
      by_cases hc : bContains l s
      · have hss := ih ls (by simpa [matchTail, hc] using h)
        simpa using Nat.succ_le_succ hss
      · simp [matchTail, hc] at h

/-- A confirmed start's span lies entirely inside the candidate lines. -/
lemma mem_confirmedStarts_bound {secret : List (List Nat)} {lines : List (List Nat)} {i : Nat}
    (hi : i ∈ confirmedStarts secret lines) : i + secret.length ≤ lines.length := by
  simp only [confirmedStarts, List.mem_filter, decide_eq_true_eq] at hi
  obtain ⟨hstart, hclass⟩ := hi
  have hlt : i < lines.length := mem_secretStarts hstart
  rcases secret with _ | ⟨x, _ | ⟨y, rest⟩⟩
  · simp [classifyAt] at hclass
  · simpa using hlt
  · have hm : matchTail (y :: rest) (lines.drop (i + 1)) = .matched := by
      simpa [classifyAt] using hclass
    have hlen := matchTail_matched_length _ _ hm
    simp only [List.length_cons, List.length_drop] at hlen ⊢
    omega

/-- `redactSpanAux` succeeds when the span is in bounds; it preserves
the number of lines and does not touch lines outside the span. -/
lemma redactSpanAux_spec (r : List Nat) : ∀ (sl : List (List Nat)) (i : Nat) (ls : List (List Nat)),
    i + sl.length ≤ ls.length →
    ∃ ls', redactSpanAux r sl i ls = some ls' ∧ ls'.length = ls.length
      ∧ ∀ j, (j < i ∨ i + sl.length ≤ j) → ls'[j]? = ls[j]? := by
  intro sl
  induction sl with
  | nil =>
    intro i ls _
    exact ⟨ls, rfl, rfl, fun j _ => rfl⟩
  | cons s rest ih =>
    intro i ls hb
    simp only [List.length_cons] at hb
    have hi : i < ls.length := by omega
    obtain ⟨ls', h1, h2, h3⟩ :=
      ih (i + 1) (ls.set i (bReplace (ls.getD i []) s r)) (by simp; omega)
    refine ⟨ls', ?_, by simpa using h2, ?_⟩
    · simpa [redactSpanAux, hi] using h1
    · intro j hj
      simp only [List.length_cons] at hj
      have hji : i ≠ j := by omega
      rw [h3 j (by omega)]
      exact List.getElem?_set_ne hji

/-- `redactIdxs` succeeds when every start's span is in bounds; it
preserves the number of lines and does not touch lines outside every
span. -/
lemma redactIdxs_spec (secret : List (List Nat)) : ∀ (idxs : List Nat) (ls : List (List Nat)),
    (∀ i ∈ idxs, i + secret.length ≤ ls.length) →
    ∃ ls', redactIdxs secret idxs ls = some ls' ∧ ls'.length = ls.length
      ∧ ∀ j, (∀ i ∈ idxs, j < i ∨ i + secret.length ≤ j) → ls'[j]? = ls[j]? := by
  intro idxs
  induction idxs with
  | nil =>
    intro ls _
    exact ⟨ls, rfl, rfl, fun j _ => rfl⟩
  | cons i is ih =>
    intro ls hb
    obtain ⟨ls1, e1, len1, un1⟩ :=
      redactSpanAux_spec redactBytes secret i ls (hb i (by simp))
    obtain ⟨ls2, e2, len2, un2⟩ := ih ls1 (fun i' hi' => len1 ▸ hb i' (by simp [hi']))
    refine ⟨ls2, ?_, len2.trans len1, ?_⟩
    · simpa [redactIdxs, e1] using e2
    · intro j hj
      rw [un2 j (fun i' hi' => hj i' (by simp [hi'])), un1 j (hj i (by simp))]

/-- `redact` succeeds when every listed secret exists and every
confirmed span is in bounds; it preserves the number of lines and
leaves uncovered lines unchanged. -/
lemma redact_spec (secrets : List (List (List Nat))) : ∀ (mm : List (Nat × List Nat)) (ls : List (List Nat)),
    (∀ q ∈ mm, ∃ secret, secrets[q.1]? = some secret ∧ ∀ i ∈ q.2, i + secret.length ≤ ls.length) →
    ∃ ls', redact secrets mm ls = some ls' ∧ ls'.length = ls.length
      ∧ ∀ j, ¬ coveredBy secrets mm j → ls'[j]? = ls[j]? := by
  intro mm
  induction mm with
  | nil =>
    intro ls _
    exact ⟨ls, rfl, rfl, fun j _ => rfl⟩
  | cons q rest ih =>
    intro ls hb
    obtain ⟨secret, hget, hbound⟩ := hb q (by simp)
    obtain ⟨si, idxs⟩ := q
    obtain ⟨ls1, e1, len1, un1⟩ := redactIdxs_spec secret idxs ls hbound
    obtain ⟨ls2, e2, len2, un2⟩ :=
      ih ls1 (fun q' hq' => by
        obtain ⟨secret', hget', hbound'⟩ := hb q' (by simp [hq'])
        exact ⟨secret', hget', fun i hi => len1 ▸ hbound' i hi⟩)
    refine ⟨ls2, ?_, len2.trans len1, ?_⟩
    · simpa [redact, hget, e1] using e2
    · intro j hj
      have hj1 : ¬ coveredBy secrets rest j := by
        intro ⟨q', hq', w⟩
        exact hj ⟨q', by simp [hq'], w⟩
      rw [un2 j hj1]
      refine un1 j ?_
      intro i hi
      by_contra hcon
      push_neg at hcon
      exact hj ⟨(si, idxs), by simp, secret, hget, i, hi, by omega, by omega⟩

/-- Every entry of the match map names an existing secret and carries
exactly its confirmed starts. -/
lemma matchMapAux_mem {lines : List (List Nat)} : ∀ (secrets : List (List (List Nat))) (k : Nat)
    (q : Nat × List Nat), q ∈ matchMapAux lines k secrets →
    ∃ j secret, secrets[j]? = some secret ∧ q.1 = k + j
      ∧ q.2 = confirmedStarts secret lines := by
  intro secrets
  induction secrets with
  | nil =>
    intro k q h
    simp [matchMapAux] at h
  | cons s rest ih =>
    intro k q h
    rcases List.mem_cons.mp h with h | h
    · exact ⟨0, s, by simp, by simp [h], by simp [h]⟩
    · obtain ⟨j, secret, h1, h2, h3⟩ := ih (k + 1) q h
      exact ⟨j + 1, secret, by simpa using h1, by omega, h3⟩

/-- `redact` applied to the match map computed over the same lines
always succeeds, keeps the line count, and leaves uncovered lines
unchanged. -/
lemma redact_matchMap_spec (secrets : List (List (List Nat))) (lines : List (List Nat)) :
    ∃ rl, redact secrets (matchMapAux lines 0 secrets) lines = some rl
      ∧ rl.length = lines.length
      ∧ ∀ j, ¬ coveredBy secrets (matchMapAux lines 0 secrets) j → rl[j]? = lines[j]? := by
  apply redact_spec
  intro q hq
  obtain ⟨j, secret, h1, h2, h3⟩ := matchMapAux_mem secrets 0 q hq
  refine ⟨secret, ?_, ?_⟩
  · rw [h2, Nat.zero_add]
    exact h1
  · intro i hi
    rw [h3] at hi
    exact mem_confirmedStarts_bound hi

/-! ### Claim C3 (amended) -/

/-- C3 (amended) — `Buffer.Flush` re-runs matching over the retained
store plus the trailing chunk (newline-terminated), never fails,
forwards every candidate line (pending matches withhold nothing), with
exactly the confirmed spans rewritten (lines covered by no confirmed
span pass through byte-for-byte), and leaves the store and chunk empty.
The only deviation from the claim is the newline appended to a
nonempty trailing chunk, per `c3_flush_appends_newline_counterexample`. -/
theorem c3_flush_forwards_redacted_store (secrets : List (List (List Nat)))
    (chunk : List Nat) (store : List (List Nat)) (out : List Nat) :
    ∃ rl,
      redact secrets (matchMapAux (flushCandidates chunk store) 0 secrets)
          (flushCandidates chunk store) = some rl
        ∧ bufferFlush ⟨secrets, chunk, store, out⟩ = some ⟨secrets, [], [], out ++ rl.flatten⟩
        ∧ rl.length = (flushCandidates chunk store).length
        ∧ ∀ j, ¬ coveredBy secrets (matchMapAux (flushCandidates chunk store) 0 secrets) j →
            rl[j]? = (flushCandidates chunk store)[j]? := by
  obtain ⟨rl, e, len, un⟩ := redact_matchMap_spec secrets (flushCandidates chunk store)
  refine ⟨rl, e, ?_, len, un⟩
  by_cases hc : chunk = []
  · have hcand : flushCandidates chunk store = store := by simp [flushCandidates, hc]
    rw [hcand] at e
    simp [bufferFlush, hc, matchSecrets, e]
  · have hcand : flushCandidates chunk store = store ++ [chunk ++ [newLineByte]] := by
      simp [flushCandidates, hc]
    rw [hcand] at e
    simp [bufferFlush, hc, matchSecrets, e]

/-! ### Claim C9 -/

/-- C9 — flushing an already-idle pipeline (redactor with empty chunk
and empty store, classifier Idle) is a no-op: the state is unchanged, no
record is emitted, no bytes are forwarded and no error occurs — and
hence so is flushing twice in a row. -/
theorem c9_idle_pipeline_flush_noop (p : Pipeline) (h1 : p.buf.chunk = [])
    (h2 : p.buf.store = []) (h3 : p.cls = .idle) :
    pipelineFlush p = some (p, [], [])
      ∧ (pipelineFlush p).bind (fun q => pipelineFlush q.1) = some (p, [], []) := by
  obtain ⟨⟨sec, ch, st, ou⟩, cls⟩ := p
  simp only at h1 h2 h3
  subst h1; subst h2; subst h3
  have hflush : bufferFlush ⟨sec, [], [], ou⟩ = some ⟨sec, [], [], ou⟩ := by
    obtain ⟨rl, e, len, _⟩ := redact_matchMap_spec sec (flushCandidates [] [])
    have hc : flushCandidates [] [] = ([] : List (List Nat)) := by simp [flushCandidates]
    rw [hc] at e len
    have hrl : rl = [] := List.length_eq_zero.mp (by simpa using len)
    subst hrl
    simp [bufferFlush, matchSecrets, e]
  have hone : pipelineFlush ⟨⟨sec, [], [], ou⟩, .idle⟩ = some (⟨⟨sec, [], [], ou⟩, .idle⟩, [], []) := by
    simp [pipelineFlush, hflush, List.drop_length, classifierWrite, classifierFlush]
  exact ⟨hone, by rw [hone]; simpa using hone⟩

/-- Witness for C9 at the freshly constructed empty pipeline. -/
theorem c9_witness :
    pipelineFlush ⟨⟨[], [], [], []⟩, .idle⟩ = some (⟨⟨[], [], [], []⟩, .idle⟩, [], [])
      ∧ (pipelineFlush ⟨⟨[], [], [], []⟩, .idle⟩).bind (fun q => pipelineFlush q.1)
        = some (⟨⟨[], [], [], []⟩, .idle⟩, [], []) :=
  c9_idle_pipeline_flush_noop ⟨⟨[], [], [], []⟩, .idle⟩ rfl rfl rfl

/-! ### Lemmas about the level classifier -/

/-- Two prefixes of the same list with equal lengths are equal. -/
lemma prefix_unique {a b w : List Nat} (ha : a.isPrefixOf w = true)
    (hb : b.isPrefixOf w = true) (hl : a.length = b.length) : a = b := by
  have ha' := List.isPrefixOf_iff_prefix.mp ha
  have hb' := List.isPrefixOf_iff_prefix.mp hb
  exact (List.prefix_of_prefix_length_le ha' hb' hl.le).eq_of_length hl

/-- A different marker of the same length cannot also begin the chunk. -/
lemma marker_not_prefix (m' : List Nat) {m w : List Nat} (hp : m.isPrefixOf w = true)
    (hlen : m'.length = m.length) (hne : m' ≠ m) : ¬ m' <+: w := by
  intro hcon
  exact hne (prefix_unique (List.isPrefixOf_iff_prefix.mpr hcon) hp hlen)

/-- A chunk beginning with a level's opening marker is recognized as
exactly that level: the five markers have equal length and are pairwise
distinct, so no other marker can also be a prefix. -/
lemma findOpen_of_marker {l : Level} {m w : List Nat} (hm : openMarkerOf l = some m)
    (hp : m.isPrefixOf w = true) : findOpen w = some l := by
  cases l
  case normal => simp [openMarkerOf] at hm
  all_goals
    obtain rfl : m = _ := (Option.some.inj hm).symm
  case error =>
    refine List.find?_cons_of_pos _ ?_
    simpa [openMarkerOf] using hp
  case warn =>
    rw [findOpen, leveledLevels]
    rw [List.find?_cons_of_neg _ (by
      simpa [openMarkerOf] using
        marker_not_prefix [27, 91, 51, 49, 59, 49, 109] hp (by decide) (by decide))]
    refine List.find?_cons_of_pos _ ?_
    simpa [openMarkerOf] using hp
  case info =>
    rw [findOpen, leveledLevels]
    rw [List.find?_cons_of_neg _ (by
      simpa [openMarkerOf] using
        marker_not_prefix [27, 91, 51, 49, 59, 49, 109] hp (by decide) (by decide))]
    rw [List.find?_cons_of_neg _ (by
      simpa [openMarkerOf] using
        marker_not_prefix [27, 91, 51, 51, 59, 49, 109] hp (by decide) (by decide))]
    refine List.find?_cons_of_pos _ ?_
    simpa [openMarkerOf] using hp
  case done =>
    rw [findOpen, leveledLevels]
    rw [List.find?_cons_of_neg _ (by
      simpa [openMarkerOf] using
        marker_not_prefix [27, 91, 51, 49, 59, 49, 109] hp (by decide) (by decide))]
    rw [List.find?_cons_of_neg _ (by
      simpa [openMarkerOf] using
        marker_not_prefix [27, 91, 51, 51, 59, 49, 109] hp (by decide) (by decide))]
    rw [List.find?_cons_of_neg _ (by
      simpa [openMarkerOf] using
        marker_not_prefix [27, 91, 51, 52, 59, 49, 109] hp (by decide) (by decide))]
    refine List.find?_cons_of_pos _ ?_
    simpa [openMarkerOf] using hp
  case debug =>
    rw [findOpen, leveledLevels]
    rw [List.find?_cons_of_neg _ (by
      simpa [openMarkerOf] using
        marker_not_prefix [27, 91, 51, 49, 59, 49, 109] hp (by decide) (by decide))]
    rw [List.find?_cons_of_neg _ (by
      simpa [openMarkerOf] using
        marker_not_prefix [27, 91, 51, 51, 59, 49, 109] hp (by decide) (by decide))]
    rw [List.find?_cons_of_neg _ (by
      simpa [openMarkerOf] using
        marker_not_prefix [27, 91, 51, 52, 59, 49, 109] hp (by decide) (by decide))]
    rw [List.find?_cons_of_neg _ (by
      simpa [openMarkerOf] using
        marker_not_prefix [27, 91, 51, 50, 59, 49, 109] hp (by decide) (by decide))]
    refine List.find?_cons_of_pos _ ?_
    simpa [openMarkerOf] using hp

/-- Running the classifier from Collecting over chunks whose
accumulations never reach the full-match condition keeps collecting the
chunks, joined by line separators, and emits nothing. -/
lemma run_collecting_nomatch (l : Level) : ∀ (ws : List (List Nat)) (acc : List Nat),
    (∀ w ∈ ws, w ≠ []) →
    (∀ k, k ≤ ws.length → fullMatch l (accumFrom acc (ws.take k)) = false) →
    runClassifier (.collecting l acc) ws = (.collecting l (accumFrom acc ws), []) := by
  intro ws
  induction ws with
  | nil =>
    intro acc _ _
    simp [runClassifier, accumFrom]
  | cons w ws' ih =>
    intro acc hne hmid
    have hw : w ≠ [] := hne w (by simp)
    have hnm : fullMatch l (acc ++ [newLineByte] ++ w) = false := hmid 1 (by simp)
    have hnm' : fullMatch l (acc ++ newLineByte :: w) = false := by simpa using hnm
    have hstep : classifierWrite (.collecting l acc) w
        = (.collecting l (acc ++ newLineByte :: w), []) := by
      simp [classifierWrite, hw, hnm']
    have hrest := ih (acc ++ newLineByte :: w) (fun w' hw' => hne w' (by simp [hw']))
      (fun k hk => by
        have h2 := hmid (k + 1) (by simpa using hk)
        simpa [accumFrom] using h2)
    simp only [runClassifier, hstep, hrest]
    simp [accumFrom]

/-- Running the classifier from Collecting over chunks where only the
final accumulation reaches the full-match condition emits exactly one
record at the collected level, with the markers stripped. -/
lemma run_collecting_matched (l : Level) : ∀ (ws : List (List Nat)) (acc : List Nat),
    ws ≠ [] →
    (∀ w ∈ ws, w ≠ []) →
    (∀ k, k < ws.length → fullMatch l (accumFrom acc (ws.take k)) = false) →
    fullMatch l (accumFrom acc ws) = true →
    runClassifier (.collecting l acc) ws
      = (.idle, [⟨l, stripLeveled l (accumFrom acc ws)⟩]) := by
  intro ws
  induction ws with
  | nil =>
    intro acc hws _ _ _
    exact absurd rfl hws
  | cons w ws' ih =>
    intro acc _ hne hmid hfin
    have hw : w ≠ [] := hne w (by simp)
    by_cases hws' : ws' = []
    · subst hws'
      have hm : fullMatch l (acc ++ [newLineByte] ++ w) = true := hfin
      have hm' : fullMatch l (acc ++ newLineByte :: w) = true := by simpa using hm
      have hstep : classifierWrite (.collecting l acc) w
          = (.idle, [⟨l, stripLeveled l (acc ++ newLineByte :: w)⟩]) := by
        simp [classifierWrite, hw, hm']
      simp only [runClassifier, hstep]
      simp [accumFrom]
    · have hnm : fullMatch l (acc ++ [newLineByte] ++ w) = false :=
        hmid 1 (Nat.succ_lt_succ (List.length_pos.mpr hws'))
      have hnm' : fullMatch l (acc ++ newLineByte :: w) = false := by simpa using hnm
      have hstep : classifierWrite (.collecting l acc) w
          = (.collecting l (acc ++ newLineByte :: w), []) := by
        simp [classifierWrite, hw, hnm']
      have hrest := ih (acc ++ newLineByte :: w) hws'
        (fun w' hw' => hne w' (by simp [hw']))
        (fun k hk => by
          have h2 := hmid (k + 1) (by simpa using hk)
          simpa [accumFrom] using h2)
        (by simpa [accumFrom] using hfin)
      simp only [runClassifier, hstep, hrest]
      simp [accumFrom]

/-! ### Claim C4 -/

/-- C4 — a message opened with level `l`'s marker, continued across one
or more further chunks with no intermediate accumulation reaching the
anchored full-match condition, and whose final accumulation does reach
it, is emitted as exactly one record: level `l`, message the chunks
joined by line separators with the opening marker, closing marker and
one optional trailing terminator stripped. -/
theorem c4_multichunk_leveled_message (l : Level) (m w0 : List Nat) (ws : List (List Nat))
    (hm : openMarkerOf l = some m)
    (hopen : m.isPrefixOf w0 = true)
    (hws : ws ≠ [])
    (hne : ∀ w ∈ w0 :: ws, w ≠ [])
    (hmid : ∀ k, k < ws.length → fullMatch l (accumFrom w0 (ws.take k)) = false)
    (hfin : fullMatch l (accumFrom w0 ws) = true) :
    runClassifier .idle (w0 :: ws) = (.idle, [⟨l, stripLeveled l (accumFrom w0 ws)⟩]) := by
  have hw0 : w0 ≠ [] := hne w0 (by simp)
  have hnm0 : fullMatch l w0 = false := by
    have := hmid 0 (by simpa using List.length_pos_iff_ne_nil.mpr hws)
    simpa [accumFrom] using this
  have hstep : classifierWrite .idle w0 = (.collecting l w0, []) := by
    simp [classifierWrite, hw0, findOpen_of_marker hm hopen, hnm0]
  have hrest := run_collecting_matched l ws w0 hws (fun w hw => hne w (by simp [hw])) hmid hfin
  simp only [runClassifier, hstep, hrest]
  simp

/-- Witness for C4: the three-chunk debug message of the repository's
own test suite is emitted as one debug record with the chunks joined by
line breaks and the markers stripped. -/
theorem c4_witness :
    runClassifier .idle
        [[27, 91, 51, 53, 59, 49, 109, 100, 101, 116, 101, 99, 116, 101, 100, 32, 108,
            111, 103, 105, 110, 32, 109, 101, 116, 104, 111, 100, 58],
          [45, 32, 65, 80, 73, 32, 107, 101, 121],
          [45, 32, 117, 115, 101, 114, 110, 97, 109, 101, 27, 91, 48, 109]]
      = (.idle,
          [⟨.debug,
            [100, 101, 116, 101, 99, 116, 101, 100, 32, 108, 111, 103, 105, 110, 32, 109,
              101, 116, 104, 111, 100, 58, 10, 45, 32, 65, 80, 73, 32, 107, 101, 121, 10,
              45, 32, 117, 115, 101, 114, 110, 97, 109, 101]⟩]) := by
  have h := c4_multichunk_leveled_message .debug [27, 91, 51, 53, 59, 49, 109]
    [27, 91, 51, 53, 59, 49, 109, 100, 101, 116, 101, 99, 116, 101, 100, 32, 108, 111,
      103, 105, 110, 32, 109, 101, 116, 104, 111, 100, 58]
    [[45, 32, 65, 80, 73, 32, 107, 101, 121],
      [45, 32, 117, 115, 101, 114, 110, 97, 109, 101, 27, 91, 48, 109]]
    (by decide) (by decide) (by decide) (by decide) (by decide) (by decide)
  rw [h]
  decide

/-! ### Claim C5 -/

/-- C5 — a write sequence that opens with level `l`'s marker but whose
accumulations never reach the anchored full-match condition leaves the
classifier Collecting the chunks joined by line separators having
emitted nothing; the explicit flush then emits exactly one record of
level normal whose message is that accumulated text byte-for-byte (no
marker stripped), and a flush in Idle emits nothing. -/
theorem c5_flush_collecting_emits_normal_raw (l : Level) (m w0 : List Nat)
    (ws : List (List Nat))
    (hm : openMarkerOf l = some m)
    (hopen : m.isPrefixOf w0 = true)
    (hne : ∀ w ∈ w0 :: ws, w ≠ [])
    (hnever : ∀ k, k ≤ ws.length → fullMatch l (accumFrom w0 (ws.take k)) = false) :
    runClassifier .idle (w0 :: ws) = (.collecting l (accumFrom w0 ws), [])
      ∧ classifierFlush (.collecting l (accumFrom w0 ws))
        = (.idle, [⟨.normal, accumFrom w0 ws⟩])
      ∧ classifierFlush .idle = (.idle, []) := by
  have hw0 : w0 ≠ [] := hne w0 (by simp)
  have hnm0 : fullMatch l w0 = false := by
    have := hnever 0 (by simp)
    simpa [accumFrom] using this
  have hstep : classifierWrite .idle w0 = (.collecting l w0, []) := by
    simp [classifierWrite, hw0, findOpen_of_marker hm hopen, hnm0]
  have hrest := run_collecting_nomatch l ws w0 (fun w hw => hne w (by simp [hw])) hnever
  refine ⟨?_, rfl, rfl⟩
  simp only [runClassifier, hstep, hrest]
  simp

/-- Witness for C5: the never-closed error message of the repository's
own test suite stays Collecting and is flushed as one normal record
with its raw, unstripped bytes. -/
theorem c5_witness :
    runClassifier .idle
        [[27, 91, 51, 49, 59, 49, 109, 65, 110, 111, 116, 104, 101, 114, 32, 101, 114,
            114, 111, 114, 10]]
      = (.collecting .error
          [27, 91, 51, 49, 59, 49, 109, 65, 110, 111, 116, 104, 101, 114, 32, 101, 114,
            114, 111, 114, 10], [])
      ∧ classifierFlush (.collecting .error
          [27, 91, 51, 49, 59, 49, 109, 65, 110, 111, 116, 104, 101, 114, 32, 101, 114,
            114, 111, 114, 10])
        = (.idle,
            [⟨.normal,
              [27, 91, 51, 49, 59, 49, 109, 65, 110, 111, 116, 104, 101, 114, 32, 101,
                114, 114, 111, 114, 10]⟩])
      ∧ classifierFlush .idle = (.idle, []) := by
  have h := c5_flush_collecting_emits_normal_raw .error [27, 91, 51, 49, 59, 49, 109]
    [27, 91, 51, 49, 59, 49, 109, 65, 110, 111, 116, 104, 101, 114, 32, 101, 114, 114,
      111, 114, 10]
    [] (by decide) (by decide) (by decide) (by decide)
  simpa [accumFrom] using h

/-! ### Claim C7 -/

/-- C7 — refuted on the code: when the encoder fails, the manually
constructed fallback error record is printed by `fmt.Println` to the
process standard output, while the logger's configured output receives
nothing — the substitute record does not go to the logger's output
(contradicting the code's own comment "print it to the output"). -/
theorem c7_fallback_goes_to_stdout :
    jlLogMessage (fun _ => none) (fun _ => "write failed") (fun _ => "payload")
        ⟨[], []⟩ "hello" ⟨"T0", "step", "", "normal"⟩
      = ⟨[], [logMessageForError "write failed" "T0" "payload" ++ "\n"]⟩
      ∧ (jlLogMessage (fun _ => none) (fun _ => "write failed") (fun _ => "payload")
          ⟨[], []⟩ "hello" ⟨"T0", "step", "", "normal"⟩).output = [] := by
  constructor
  · rfl
  · rfl

/-! ### Claim C6 -/

/-- C6 — `ErrorMessages` returns the Error Extractor's accumulated
list whenever the stage is present, returns the empty result when no
error-extraction stage was configured, `NewWriter` always installs the
stage with an empty initial list, and each write appends the newly
detected error-level messages in order. -/
theorem c6_error_messages_accessor (secrets : List (List Nat)) (w : StepWriter) :
    (∀ e, w.errorWriter = some e → stepErrorMessages w = e.errorMessages)
      ∧ (w.errorWriter = none → stepErrorMessages w = [])
      ∧ (newStepWriter secrets).errorWriter = some ⟨.idle, []⟩
      ∧ ∀ e p, (efWrite e p).errorMessages
          = e.errorMessages
            ++ ((classifierWrite e.cls p).2.filter
                  (fun r => decide (r.level = Level.error))).map (fun r => r.message) := by
  refine ⟨?_, ?_, rfl, ?_⟩
  · intro e he
    simp [stepErrorMessages, he]
  · intro he
    simp [stepErrorMessages, he]
  · intro e p
    rfl

/-- Witness for C6 at a writer whose extractor has accumulated one
message, and at a writer with no extractor stage. -/
theorem c6_witness :
    stepErrorMessages ⟨none, some ⟨.idle, [[104, 105]]⟩, .idle⟩ = [[104, 105]]
      ∧ stepErrorMessages ⟨none, none, .idle⟩ = [] :=
  ⟨(c6_error_messages_accessor [] ⟨none, some ⟨.idle, [[104, 105]]⟩, .idle⟩).1
      ⟨.idle, [[104, 105]]⟩ rfl,
    (c6_error_messages_accessor [] ⟨none, none, .idle⟩).2.1 rfl⟩

/-! ### Claim C8 -/

/-- C8 — with silence threshold 5, five consecutive ticks with no
interleaved write produce exactly one liveness-lost signal, and a write
after `k < 5` silent ticks resets the counter so that no signal fires
within the following five-tick window. -/
theorem c8_hang_detector_threshold (k : Nat) (hk : k < 5) :
    (hdRun 5 hdStart (List.replicate 5 .tick)).signals = 1
      ∧ (hdRun 5 hdStart
          (List.replicate k .tick ++ [.write] ++ List.replicate 5 .tick)).signals = 0 := by
  constructor
  · decide
  · interval_cases k <;> decide

/-- Witness for C8 at `k = 3`. -/
theorem c8_witness :
    (hdRun 5 hdStart (List.replicate 5 .tick)).signals = 1
      ∧ (hdRun 5 hdStart
          (List.replicate 3 .tick ++ [.write] ++ List.replicate 5 .tick)).signals = 0 :=
  c8_hang_detector_threshold 3 (by decide)

end Bitrise
